import Mathlib

/-! qlementine: hex helpers, pixmap colorization cache, segmented-control colours

A shallow embedding of

* `to_hex` / `toHex` from `lib/include/oclero/qlementine/utils/ImageUtils.hpp`,
* the colour getters of `lib/src/widgets/SegmentedControl.cpp`,
* the colorize / cache-key / cache-facade operations that `ImageUtils.hpp` only declares
  (their bodies are modelled from the specification and marked as such),

followed by the theorems about them.

Conventions.  A C++ integral type is described by an `IntegralType` record (how stream
insertion treats it, its `sizeof`, its signedness); a value of the type is an `Int` inside the
range of the type.  A `std::string` is a Lean `String` whose characters stand for the `char`
code units (bytes) of the C++ string.  A `QString` is the list of its UTF-16 code units.  The
stream is taken in the classic "C" locale (no digit grouping), which is the state of a freshly
constructed `std::stringstream` in a program that never replaces the global C++ locale.
-/

namespace oclero.qlementine

/-! ## Integral types -/

/-- How `std::ostream::operator<<` treats an integral type: `bool`, the narrow character types
(`char`, `signed char`, `unsigned char`, hence `int8_t` and `uint8_t`), and every other integer
type (`short` ... `unsigned long long`). -/
inductive IntegralKind where
  | boolean
  | character
  | integer
  deriving DecidableEq, Repr

/-- Description of a type `T` with `std::is_integral<T>::value`. -/
structure IntegralType where
  kind : IntegralKind
  sizeof : Nat
  isSigned : Bool
  deriving DecidableEq, Repr

namespace IntegralType

/-- Width of the type in bits. -/
def bits (T : IntegralType) : Nat := 8 * T.sizeof

/-- Smallest value of the type. -/
def minValue (T : IntegralType) : Int :=
  match T.kind with
  | .boolean => 0
  | _ => if T.isSigned then -((2 : Int) ^ (T.bits - 1)) else 0

/-- Largest value of the type. -/
def maxValue (T : IntegralType) : Int :=
  match T.kind with
  | .boolean => 1
  | _ => if T.isSigned then (2 : Int) ^ (T.bits - 1) - 1 else (2 : Int) ^ T.bits - 1

/-- The integer `i` is a value of the type. -/
def holds (T : IntegralType) (i : Int) : Prop := T.minValue ≤ i ∧ i ≤ T.maxValue

instance (T : IntegralType) (i : Int) : Decidable (T.holds i) := by
  unfold holds; exact inferInstance

/-- Result of `static_cast` to the unsigned type of the same width: the two's-complement bit
pattern of `i`, read as a natural number. -/
def toUnsigned (T : IntegralType) (i : Int) : Nat := (i % (2 : Int) ^ T.bits).toNat

end IntegralType

def bool_t : IntegralType := ⟨.boolean, 1, false⟩
def char_t : IntegralType := ⟨.character, 1, true⟩
def int8_t : IntegralType := ⟨.character, 1, true⟩
def uint8_t : IntegralType := ⟨.character, 1, false⟩
def int16_t : IntegralType := ⟨.integer, 2, true⟩
def uint16_t : IntegralType := ⟨.integer, 2, false⟩
def int32_t : IntegralType := ⟨.integer, 4, true⟩
def uint32_t : IntegralType := ⟨.integer, 4, false⟩
def int64_t : IntegralType := ⟨.integer, 8, true⟩
def uint64_t : IntegralType := ⟨.integer, 8, false⟩

/-! ## The part of `std::stringstream` that `to_hex` uses -/

/-- The `basefield` format flag. -/
inductive Basefield where
  | dec
  | hex
  deriving DecidableEq, Repr

/-- State of a `std::stringstream`: the characters written so far and the formatting state
(`fill()`, `width()`, `flags() & basefield`).  `adjustfield` is never touched by `to_hex`, so
padding goes to the left of the converted text. -/
structure StringStream where
  buffer : List Char
  fillChar : Char
  width : Nat
  basefield : Basefield

namespace StringStream

/-- The state after `std::stringstream stream;`. -/
def init : StringStream := ⟨[], ' ', 0, .dec⟩

/-- The manipulator `std::setfill(c)`. -/
def setfill (s : StringStream) (c : Char) : StringStream := { s with fillChar := c }

/-- The manipulator `std::setw(n)`. -/
def setw (s : StringStream) (n : Nat) : StringStream := { s with width := n }

/-- The manipulator `std::hex`. -/
def hex (s : StringStream) : StringStream := { s with basefield := .hex }

/-- Formatted output of an already converted character sequence: fill characters are added in
front until `width()` is reached, then `width(0)` is called. -/
def put (s : StringStream) (text : List Char) : StringStream :=
  { s with
    buffer := s.buffer ++ (List.replicate (s.width - text.length) s.fillChar ++ text)
    width := 0 }

/-- Insertion of a string literal, `stream << "literal"`. -/
def insertCStr (s : StringStream) (text : String) : StringStream := s.put text.data

/-- Conversion of an arithmetic value by `num_put`: with `hex` the value is converted as the
unsigned type of the same width (`%x`), with `dec` as a signed decimal (`%d`). -/
def convert (s : StringStream) (T : IntegralType) (i : Int) : List Char :=
  match s.basefield with
  | .hex => Nat.toDigits 16 (T.toUnsigned i)
  | .dec => if i < 0 then '-' :: Nat.toDigits 10 i.natAbs else Nat.toDigits 10 i.natAbs

/-- Insertion `stream << i` for `i` of integral type `T`.  For the narrow character types the overload
for `char` / `signed char` / `unsigned char` is selected, which writes the character whose code
unit is `i` and ignores `basefield`; every other integral type goes through `num_put`. -/
def insertIntegral (s : StringStream) (T : IntegralType) (i : Int) : StringStream :=
  match T.kind with
  | .character => s.put [Char.ofNat (T.toUnsigned i)]
  | _ => s.put (s.convert T i)

/-- The accessor `stream.str()`. -/
def str (s : StringStream) : String := String.mk s.buffer

end StringStream

/-! ## `to_hex` and `toHex` -/

/-- Embedding of
`template<typename T, ...is_integral...> std::string to_hex(T const i, bool const prefix = false)`. -/
def to_hex (T : IntegralType) (i : Int) (pfx : Bool) : String :=
  let stream := StringStream.init
  let stream := if pfx then stream.insertCStr "0x" else stream
  let stream := (((stream.setfill '0').setw (T.sizeof * 2)).hex).insertIntegral T i
  stream.str

/-! ## `QString` -/

/-- A `QString`: the sequence of its UTF-16 code units. -/
structure QString where
  units : List Nat
  deriving DecidableEq, Repr

/-- Continuation byte `10xxxxxx` of a UTF-8 sequence. -/
def isContinuation (b : Nat) : Bool := 0x80 ≤ b && b < 0xC0

/-- One step of the UTF-8 decoder behind `QString::fromUtf8`: the lead byte `b` and the bytes
after it give a code point and the number of continuation bytes used.  A lead byte that does
not start a well-formed sequence (stray continuation byte, overlong or truncated sequence,
surrogate, value above U+10FFFF) gives U+FFFD and uses no further byte. -/
def decodeStep (b : Nat) (rest : List Nat) : Nat × Nat :=
  if b < 0x80 then (b, 0)
  else if 0xC2 ≤ b ∧ b < 0xE0 then
    match rest with
    | b1 :: _ =>
      if isContinuation b1 then ((b - 0xC0) * 64 + (b1 - 0x80), 1) else (0xFFFD, 0)
    | _ => (0xFFFD, 0)
  else if 0xE0 ≤ b ∧ b < 0xF0 then
    match rest with
    | b1 :: b2 :: _ =>
      let cp := (b - 0xE0) * 4096 + (b1 - 0x80) * 64 + (b2 - 0x80)
      if isContinuation b1 ∧ isContinuation b2 ∧ 0x800 ≤ cp ∧ ¬ (0xD800 ≤ cp ∧ cp < 0xE000) then
        (cp, 2)
      else (0xFFFD, 0)
    | _ => (0xFFFD, 0)
  else if 0xF0 ≤ b ∧ b < 0xF5 then
    match rest with
    | b1 :: b2 :: b3 :: _ =>
      let cp := (b - 0xF0) * 262144 + (b1 - 0x80) * 4096 + (b2 - 0x80) * 64 + (b3 - 0x80)
      if isContinuation b1 ∧ isContinuation b2 ∧ isContinuation b3
          ∧ 0x10000 ≤ cp ∧ cp < 0x110000 then
        (cp, 3)
      else (0xFFFD, 0)
    | _ => (0xFFFD, 0)
  else (0xFFFD, 0)

/-- The decoding loop; every step uses at least one byte, so `fuel` = number of bytes is
enough (`decodeLoop_fuel`). -/
def decodeLoop : Nat → List Nat → List Nat
  | 0, _ => []
  | _ + 1, [] => []
  | fuel + 1, b :: rest =>
    (decodeStep b rest).1 :: decodeLoop fuel (rest.drop (decodeStep b rest).2)

/-- UTF-8 decoding of a byte sequence into code points. -/
def decodeUtf8 (bytes : List Nat) : List Nat := decodeLoop bytes.length bytes

/-- UTF-16 code units of a code point. -/
def encodeUtf16 (cp : Nat) : List Nat :=
  if cp < 0x10000 then [cp]
  else [0xD800 + (cp - 0x10000) / 1024, 0xDC00 + (cp - 0x10000) % 1024]

namespace QString

/-- The conversion `QString::fromStdString`: the bytes of the `std::string` are decoded as UTF-8. -/
def fromStdString (s : String) : QString :=
  ⟨(decodeUtf8 (s.data.map Char.toNat)).flatMap encodeUtf16⟩

/-- Concatenation, `operator+` on `QString`. -/
def append (a b : QString) : QString := ⟨a.units ++ b.units⟩

instance : Append QString := ⟨QString.append⟩

end QString

/-- Embedding of
`template<typename T, ...is_integral...> QString toHex(T const i, bool const prefix = false)`. -/
def toHex (T : IntegralType) (i : Int) (pfx : Bool) : QString :=
  QString.fromStdString (to_hex T i pfx)

/-- The code units of a `std::string`, one number per character. -/
def stdStringUnits (s : String) : List Nat := s.data.map Char.toNat

/-! ## Vocabulary of the claims about hex strings -/

/-- A lowercase hexadecimal digit, `[0-9a-f]`. -/
def isLowerHexDigit (c : Char) : Bool :=
  ('0' ≤ c && c ≤ '9') || ('a' ≤ c && c ≤ 'f')

/-- Value of one hexadecimal digit (either case); `0` for any other character. -/
def hexDigitValue (c : Char) : Nat :=
  if '0' ≤ c ∧ c ≤ '9' then c.toNat - 48
  else if 'a' ≤ c ∧ c ≤ 'f' then c.toNat - 87
  else if 'A' ≤ c ∧ c ≤ 'F' then c.toNat - 55
  else 0

/-- Base-16 value of a digit string, most significant digit first. -/
def base16Value (text : List Char) : Nat :=
  text.foldl (fun acc c => 16 * acc + hexDigitValue c) 0

/-! ## Colours, images, pixmaps -/

/-- A `QColor` / `QRgb`: byte channels red, green, blue, alpha. -/
structure QColor where
  red : Nat
  green : Nat
  blue : Nat
  alpha : Nat
  deriving DecidableEq, Repr

/-- The accessor `QColor::rgba()`: the channels packed as `0xAARRGGBB`. -/
def QColor.rgba (c : QColor) : Nat :=
  c.alpha * 16777216 + c.red * 65536 + c.green * 256 + c.blue

/-- A pixel-addressable raster image: its rows of pixels, top to bottom. -/
structure QImage where
  rows : List (List QColor)
  deriving DecidableEq, Repr

namespace QImage

/-- Number of rows. -/
def height (img : QImage) : Nat := img.rows.length

/-- Number of pixels in the first row (`0` for an image without rows). -/
def width (img : QImage) : Nat := (img.rows.head?.map List.length).getD 0

/-- The pixel in column `x` of row `y`, when the image has one. -/
def pixel (img : QImage) (x y : Nat) : Option QColor := (img.rows.get? y).bind (fun row => row.get? x)

/-- A null image has no pixel. -/
def isNull (img : QImage) : Bool := img.width == 0 || img.height == 0

end QImage

/-- A drawable-surface raster: the opaque handle around an image. -/
structure QPixmap where
  image : QImage
  deriving DecidableEq, Repr

namespace QPixmap

/-- The member `QPixmap::toImage`. -/
def toImage (p : QPixmap) : QImage := p.image

/-- The member `QPixmap::fromImage`. -/
def fromImage (img : QImage) : QPixmap := ⟨img⟩

/-- The member `QPixmap::isNull`. -/
def isNull (p : QPixmap) : Bool := p.image.isNull

/-- The member `QPixmap::width`. -/
def width (p : QPixmap) : Nat := p.image.width

/-- The member `QPixmap::height`. -/
def height (p : QPixmap) : Nat := p.image.height

end QPixmap

/-- Modelled from the spec: the per-pixel rule of `colorize` (section 4.1), whose body is not
among the sources: "for every pixel with alpha > 0, replace R,G,B with `color`'s R,G,B; keep
original alpha unchanged; pixels with alpha = 0 stay fully transparent (unchanged)". -/
def colorizePixel (color : QColor) (p : QColor) : QColor :=
  if 0 < p.alpha then ⟨color.red, color.green, color.blue, p.alpha⟩ else p

/-- Modelled from the spec: `QImage colorizeImage(QPixmap const& input, QColor const& color)`,
declared in `ImageUtils.hpp`, body not among the sources; section 4.1 `colorize` applied to
every pixel of the input. -/
def colorizeImage (input : QPixmap) (color : QColor) : QImage :=
  ⟨input.toImage.rows.map (fun row => row.map (colorizePixel color))⟩

/-- Modelled from the spec: `QPixmap colorizePixmap(QPixmap const& input, QColor const& color)`,
declared in `ImageUtils.hpp`, body not among the sources; the drawable-surface form of
`colorizeImage`. -/
def colorizePixmap (input : QPixmap) (color : QColor) : QPixmap :=
  QPixmap.fromImage (colorizeImage input color)

/-! ## Cache keys and the cache facade -/

/-- Embedding of `enum class ColorizeMode`. -/
inductive ColorizeMode where
  | Colorize
  | Tint
  deriving DecidableEq, Repr

/-- Modelled from the spec: the mode component of a cache key (section 4.3, "Mode (Colorize vs
Tint) must be part of the key"); the specification does not fix its spelling. -/
def modeTag : ColorizeMode → String
  | .Colorize => "colorize"
  | .Tint => "tint"

/-- Modelled from the spec: the cache key generator of section 4.3, `key = f(sourceIdentity,
color, mode)`, whose body is not among the sources.  The key is a string made of the mode, the
identity of the source pixmap and the colour; the specification fixes these three components
and not the layout, which is here: mode tag, identity in hex, colour in hex, joined by `_`.
`identity` is the source identity of section 4.3 (a cache key the pixmap carries, or a content
hash). -/
def pixmapKey (identity : QPixmap → Int) (mode : ColorizeMode) (pixmap : QPixmap)
    (color : QColor) : QString :=
  QString.fromStdString (modeTag mode) ++ QString.fromStdString "_"
    ++ toHex int64_t (identity pixmap) false ++ QString.fromStdString "_"
    ++ toHex uint32_t color.rgba false

/-- Modelled from the spec: `QString getColorizedPixmapKey(QPixmap const&, QColor const&)`,
declared in `ImageUtils.hpp`, body not among the sources; the key of section 4.3 for the mode
`Colorize`. -/
def getColorizedPixmapKey (identity : QPixmap → Int) (pixmap : QPixmap) (color : QColor) :
    QString :=
  pixmapKey identity .Colorize pixmap color

/-- Modelled from the spec: `QString getTintedPixmapKey(QPixmap const&, QColor const&)`,
declared in `ImageUtils.hpp`, body not among the sources; the key of section 4.3 for the mode
`Tint`. -/
def getTintedPixmapKey (identity : QPixmap → Int) (pixmap : QPixmap) (color : QColor) :
    QString :=
  pixmapKey identity .Tint pixmap color

/-- Modelled from the spec: the key the facade computes in step 1 of section 4.4, by mode. -/
def cacheKeyFor (identity : QPixmap → Int) (mode : ColorizeMode) (pixmap : QPixmap)
    (color : QColor) : QString :=
  match mode with
  | .Colorize => getColorizedPixmapKey identity pixmap color
  | .Tint => getTintedPixmapKey identity pixmap color

/-- Modelled from the spec: the process-wide raster cache of section 3 ("Cache Entry: key
(string) → Raster Image"), as the list of its entries, newest first. -/
structure PixmapCache where
  entries : List (QString × QPixmap)
  deriving DecidableEq, Repr

namespace PixmapCache

/-- Modelled from the spec: cache lookup (section 4.4, step 2). -/
def find (cache : PixmapCache) (key : QString) : Option QPixmap :=
  (cache.entries.find? (fun e => e.1 == key)).map (fun e => e.2)

/-- Modelled from the spec: insert-on-miss (section 4.4, step 3). -/
def insert (cache : PixmapCache) (key : QString) (pixmap : QPixmap) : PixmapCache :=
  ⟨(key, pixmap) :: cache.entries⟩

end PixmapCache

/-- Modelled from the spec: the `ErrorKind` of the transform layer (section 9). -/
inductive ErrorKind where
  | invalidInput
  | transformFailed
  deriving DecidableEq, Repr

/-- Modelled from the spec: the transform layer under the facade (section 9: "an explicit
`Result<Image, ErrorKind>`-returning transform layer wrapped by a Facade that unwraps and falls
back").  The two transforms are fields because the specification leaves the pixel arithmetic of
`tint` open and lets a transform fail. -/
structure TransformLayer where
  colorize : QPixmap → QColor → Except ErrorKind QPixmap
  tint : QPixmap → QColor → Except ErrorKind QPixmap

/-- Modelled from the spec: dispatch "to 4.1's `colorize` or `tint` per `mode`" (section 4.4,
step 3). -/
def TransformLayer.run (layer : TransformLayer) (mode : ColorizeMode) (input : QPixmap)
    (color : QColor) : Except ErrorKind QPixmap :=
  match mode with
  | .Colorize => layer.colorize input color
  | .Tint => layer.tint input color

/-- Modelled from the spec: `colorize` as an entry of the transform layer; an invalid (null)
input is a failure (section 4.4, step 4), every other input is colorized by `colorizePixmap`. -/
def colorizeChecked (input : QPixmap) (color : QColor) : Except ErrorKind QPixmap :=
  if input.isNull then .error .invalidInput else .ok (colorizePixmap input color)

/-- Modelled from the spec: `QPixmap getCachedPixmap(QPixmap const& input, QColor const& color,
ColorizeMode mode)`, declared in `ImageUtils.hpp`, body not among the sources; the four steps
of section 4.4.  An invalid input image is a failure before any key is computed; then the key
is computed, looked up, and on a miss the transform runs and its result is inserted; a failed
transform gives back the input.  The cache is threaded through explicitly. -/
def getCachedPixmap (identity : QPixmap → Int) (layer : TransformLayer) (cache : PixmapCache)
    (input : QPixmap) (color : QColor) (mode : ColorizeMode) : QPixmap × PixmapCache :=
  if input.isNull then (input, cache)
  else
    let key := cacheKeyFor identity mode input color
    match cache.find key with
    | some hit => (hit, cache)
    | none =>
      match layer.run mode input color with
      | .ok result => (result, cache.insert key result)
      | .error _ => (input, cache)

/-- Modelled from the spec: `QPixmap getColorizedPixmap(QPixmap const&, QColor const&)`,
declared in `ImageUtils.hpp`, body not among the sources; section 4.4: the wrapper that fixes
`mode` to `Colorize`. -/
def getColorizedPixmap (identity : QPixmap → Int) (layer : TransformLayer) (cache : PixmapCache)
    (input : QPixmap) (color : QColor) : QPixmap × PixmapCache :=
  getCachedPixmap identity layer cache input color .Colorize

/-- Modelled from the spec: `QPixmap getTintedPixmap(QPixmap const&, QColor const&)`, declared
in `ImageUtils.hpp`, body not among the sources; section 4.4: the wrapper that fixes `mode` to
`Tint`. -/
def getTintedPixmap (identity : QPixmap → Int) (layer : TransformLayer) (cache : PixmapCache)
    (input : QPixmap) (color : QColor) : QPixmap × PixmapCache :=
  getCachedPixmap identity layer cache input color .Tint

/-! ## `SegmentedControl` colour getters -/

/-- Modelled from the spec: the declaration of `enum class MouseState` is not among the sources
and the specification does not list its enumerators.  The three enumerators that
`SegmentedControl.cpp` names are kept; `other n` stands for every further value of the
enumeration. -/
inductive MouseState where
  | Hovered
  | Pressed
  | Disabled
  | other (n : Nat)
  deriving DecidableEq, Repr

/-- Modelled from the spec: the declaration of `Theme` is not among the sources; these are the
colour members that `SegmentedControl.cpp` reads. -/
structure Theme where
  backgroundColorMain2 : QColor
  backgroundColorMain4 : QColor
  semiTransparentColor2 : QColor
  semiTransparentColor4 : QColor
  semiTransparentColorTransparent : QColor
  primaryColorForeground : QColor
  primaryColorForegroundHovered : QColor
  primaryColorForegroundPressed : QColor
  primaryColorForegroundDisabled : QColor
  secondaryColor : QColor
  secondaryColorDisabled : QColor
  primaryAlternativeColor : QColor
  primaryAlternativeColorDisabled : QColor
  secondaryAlternativeColor : QColor
  secondaryAlternativeColorDisabled : QColor
  secondaryColorForeground : QColor
  secondaryColorForegroundDisabled : QColor
  deriving DecidableEq, Repr

namespace SegmentedControl

/-- Embedding of `SegmentedControl::getBgColor`; `isEnabled` is the widget state it reads. -/
def getBgColor (isEnabled : Bool) (theme : Theme) : QColor :=
  if isEnabled then theme.backgroundColorMain4 else theme.backgroundColorMain2

/-- Embedding of `SegmentedControl::getItemBgColor`. -/
def getItemBgColor (mouse : MouseState) (theme : Theme) : QColor :=
  match mouse with
  | .Hovered => theme.semiTransparentColor2
  | .Pressed => theme.semiTransparentColor4
  | _ => theme.semiTransparentColorTransparent

/-- Embedding of `SegmentedControl::getItemFgColor`. -/
def getItemFgColor (mouse : MouseState) (selected : Bool) (theme : Theme) : QColor :=
  match mouse with
  | .Hovered => if selected then theme.primaryColorForegroundHovered else theme.secondaryColor
  | .Pressed => if selected then theme.primaryColorForegroundPressed else theme.secondaryColor
  | .Disabled =>
    if selected then theme.primaryColorForegroundDisabled else theme.secondaryColorDisabled
  | _ => if selected then theme.primaryColorForeground else theme.secondaryColor

/-- Embedding of `SegmentedControl::getItemBadgeBgColor`. -/
def getItemBadgeBgColor (mouse : MouseState) (selected : Bool) (theme : Theme) : QColor :=
  if mouse = MouseState.Disabled then
    if selected then theme.primaryAlternativeColorDisabled
    else theme.secondaryAlternativeColorDisabled
  else
    if selected then theme.primaryAlternativeColor else theme.secondaryAlternativeColor

/-- Embedding of `SegmentedControl::getItemBadgeFgColor`. -/
def getItemBadgeFgColor (mouse : MouseState) (selected : Bool) (theme : Theme) : QColor :=
  if mouse = MouseState.Disabled then
    if selected then theme.primaryColorForegroundDisabled
    else theme.secondaryColorForegroundDisabled
  else
    if selected then theme.primaryColorForeground else theme.secondaryColorForeground

end SegmentedControl

/-! ## Sample values -/

/-- A colour whose four channels are all `n`. -/
def grey (n : Nat) : QColor := ⟨n, n, n, n⟩

/-- A theme whose seventeen colours are pairwise distinct. -/
def sampleTheme : Theme :=
  { backgroundColorMain2 := grey 1
    backgroundColorMain4 := grey 2
    semiTransparentColor2 := grey 3
    semiTransparentColor4 := grey 4
    semiTransparentColorTransparent := grey 5
    primaryColorForeground := grey 6
    primaryColorForegroundHovered := grey 7
    primaryColorForegroundPressed := grey 8
    primaryColorForegroundDisabled := grey 9
    secondaryColor := grey 10
    secondaryColorDisabled := grey 11
    primaryAlternativeColor := grey 12
    primaryAlternativeColorDisabled := grey 13
    secondaryAlternativeColor := grey 14
    secondaryAlternativeColorDisabled := grey 15
    secondaryColorForeground := grey 16
    secondaryColorForegroundDisabled := grey 17 }

/-- Opaque red. -/
def opaqueRed : QColor := ⟨255, 0, 0, 255⟩

/-- Opaque blue. -/
def opaqueBlue : QColor := ⟨0, 0, 255, 255⟩

/-- The 2×2 opaque-red pixmap of the scenario in section 8 of the specification. -/
def redSquare : QPixmap := ⟨⟨[[opaqueRed, opaqueRed], [opaqueRed, opaqueRed]]⟩⟩

/-- The null pixmap. -/
def nullPixmap : QPixmap := ⟨⟨[]⟩⟩

/-- A transform layer whose `colorize` is the checked colorize and whose `tint` always fails. -/
def sampleLayer : TransformLayer :=
  { colorize := colorizeChecked
    tint := fun _ _ => .error .transformFailed }

/-- The empty cache. -/
def emptyCache : PixmapCache := ⟨[]⟩

/-! ## Hexadecimal digits -/

theorem digitChar_lower_hex (m : Nat) (h : m < 16) : isLowerHexDigit (Nat.digitChar m) = true := by
  interval_cases m <;> decide

theorem digitChar_value (m : Nat) (h : m < 16) : hexDigitValue (Nat.digitChar m) = m := by
  interval_cases m <;> decide

theorem digitChar_ne_zero (m : Nat) (h : m < 16) (h0 : m ≠ 0) : Nat.digitChar m ≠ '0' := by
  interval_cases m <;> first | contradiction | decide

theorem base16Value_snoc (text : List Char) (c : Char) :
    base16Value (text ++ [c]) = 16 * base16Value text + hexDigitValue c := by
  simp [base16Value, List.foldl_append]

theorem base16Value_zeros (k : Nat) (text : List Char) :
    base16Value (List.replicate k '0' ++ text) = base16Value text := by
  have step : ∀ (k : Nat) (acc : Nat),
      List.foldl (fun acc c => 16 * acc + hexDigitValue c) acc (List.replicate k '0')
        = 16 ^ k * acc := by
    intro k
    induction k with
    | zero => intro acc; simp
    | succ k ih =>
      intro acc
      have hz : hexDigitValue '0' = 0 := by decide
      rw [List.replicate_succ, List.foldl_cons, ih, hz]
      ring
  simp [base16Value, List.foldl_append, step]

theorem toDigitsCore_acc (b : Nat) : ∀ (fuel n : Nat) (ds : List Char),
    Nat.toDigitsCore b fuel n ds = Nat.toDigitsCore b fuel n [] ++ ds := by
  intro fuel
  induction fuel with
  | zero => intro n ds; simp [Nat.toDigitsCore]
  | succ fuel ih =>
    intro n ds
    simp only [Nat.toDigitsCore]
    split
    · simp
    · rw [ih (n / b) (Nat.digitChar (n % b) :: ds), ih (n / b) [Nat.digitChar (n % b)]]
      simp

/-- With enough fuel the digit loop gives the shortest lowercase hexadecimal numeral of `n`. -/
theorem hexCore_spec : ∀ (fuel n : Nat), n < fuel → ∀ k : Nat, 0 < k → n < 16 ^ k →
    (Nat.toDigitsCore 16 fuel n []).length ≤ k
    ∧ (∀ c ∈ Nat.toDigitsCore 16 fuel n [], isLowerHexDigit c = true)
    ∧ base16Value (Nat.toDigitsCore 16 fuel n []) = n
    ∧ ((Nat.toDigitsCore 16 fuel n []).head? ≠ some '0' ∨ Nat.toDigitsCore 16 fuel n [] = ['0']) := by
  intro fuel
  induction fuel with
  | zero => intro n h; omega
  | succ fuel ih =>
    intro n hn k hk hlt
    have hmod : n % 16 < 16 := Nat.mod_lt _ (by decide)
    simp only [Nat.toDigitsCore]
    by_cases hq : n / 16 = 0
    · have hsmall : n < 16 := by omega
      have hm : n % 16 = n := Nat.mod_eq_of_lt hsmall
      simp only [hq, if_true, hm]
      refine ⟨by simpa using hk, ?_, ?_, ?_⟩
      · intro c hc
        simp only [List.mem_singleton] at hc
        subst hc
        exact digitChar_lower_hex n hsmall
      · simp [base16Value, digitChar_value n hsmall]
      · by_cases h0 : n = 0
        · right; subst h0; rfl
        · left
          simp only [List.head?_cons, ne_eq, Option.some.injEq]
          exact digitChar_ne_zero n hsmall h0
    · simp only [hq, if_false]
      rw [toDigitsCore_acc]
      have hk2 : 2 ≤ k := by
        by_contra hlt2
        have hk1 : k = 1 := by omega
        subst hk1
        omega
      have hq_lt : n / 16 < fuel := by omega
      have hq_pow : n / 16 < 16 ^ (k - 1) := by
        have hpow : 16 ^ k = 16 ^ (k - 1) * 16 := by
          rw [← pow_succ]; congr 1; omega
        rw [Nat.div_lt_iff_lt_mul (by decide)]
        omega
      obtain ⟨hlen, hall, hval, hhead⟩ := ih (n / 16) hq_lt (k - 1) (by omega) hq_pow
      refine ⟨?_, ?_, ?_, ?_⟩
      · simp only [List.length_append, List.length_singleton]; omega
      · intro c hc
        rcases List.mem_append.mp hc with hc | hc
        · exact hall c hc
        · simp only [List.mem_singleton] at hc
          subst hc
          exact digitChar_lower_hex _ hmod
      · rw [base16Value_snoc, hval, digitChar_value _ hmod]
        omega
      · left
        rcases hhead with hhead | hhead
        · cases hl : Nat.toDigitsCore 16 fuel (n / 16) [] with
          | nil =>
            rw [hl] at hval
            simp [base16Value] at hval
            omega
          | cons c cs =>
            rw [hl] at hhead
            simpa using hhead
        · rw [hhead] at hval
          have : base16Value ['0'] = 0 := by decide
          omega

/-! ## `to_hex` -/

theorem toUnsigned_cast (T : IntegralType) (i : Int) :
    ((T.toUnsigned i : Nat) : Int) = i % (2 : Int) ^ T.bits := by
  unfold IntegralType.toUnsigned
  exact Int.toNat_of_nonneg (Int.emod_nonneg _ (by positivity))

theorem toUnsigned_lt (T : IntegralType) (i : Int) : T.toUnsigned i < 16 ^ (T.sizeof * 2) := by
  have h : ((T.toUnsigned i : Nat) : Int) < (2 : Int) ^ T.bits := by
    rw [toUnsigned_cast]
    exact Int.emod_lt_of_pos _ (by positivity)
  have hpow : (16 : Nat) ^ (T.sizeof * 2) = 2 ^ T.bits := by
    unfold IntegralType.bits
    rw [show (16 : Nat) = 2 ^ 4 by norm_num, ← pow_mul]
    congr 1; omega
  rw [hpow]
  exact_mod_cast h

/-- What `to_hex` writes for a type that is not a narrow character type: the hexadecimal
numeral of the bit pattern, behind as many fill characters as the width asks for. -/
theorem to_hex_arith (T : IntegralType) (i : Int) (hk : T.kind ≠ .character) :
    (to_hex T i false).data
      = List.replicate (T.sizeof * 2 - (Nat.toDigits 16 (T.toUnsigned i)).length) '0'
          ++ Nat.toDigits 16 (T.toUnsigned i) := by
  cases hkind : T.kind with
  | character => exact absurd hkind hk
  | boolean =>
    simp [to_hex, StringStream.init, StringStream.setfill, StringStream.setw, StringStream.hex,
      StringStream.insertIntegral, StringStream.put, StringStream.convert, StringStream.str, hkind]
  | integer =>
    simp [to_hex, StringStream.init, StringStream.setfill, StringStream.setw, StringStream.hex,
      StringStream.insertIntegral, StringStream.put, StringStream.convert, StringStream.str, hkind]

/-- What `to_hex` writes for a narrow character type: the character itself behind one fill
character per missing column. -/
theorem to_hex_character (T : IntegralType) (i : Int) (hk : T.kind = .character) :
    (to_hex T i false).data
      = List.replicate (T.sizeof * 2 - 1) '0' ++ [Char.ofNat (T.toUnsigned i)] := by
  simp [to_hex, StringStream.init, StringStream.setfill, StringStream.setw, StringStream.hex,
    StringStream.insertIntegral, StringStream.put, StringStream.str, hk]

/-- The prefix is written before the width is set, so it sits in front of the unprefixed
output, for every integral type. -/
theorem to_hex_prefixed (T : IntegralType) (i : Int) :
    to_hex T i true = "0x" ++ to_hex T i false := by
  apply String.ext
  cases hkind : T.kind <;>
    simp [to_hex, StringStream.init, StringStream.setfill, StringStream.setw, StringStream.hex,
      StringStream.insertIntegral, StringStream.insertCStr, StringStream.put,
      StringStream.convert, StringStream.str, hkind]

/-- The properties of the hexadecimal numeral that the stream produces for a value below
`16 ^ k`. -/
theorem toDigits_hex_spec (n k : Nat) (hk : 0 < k) (hlt : n < 16 ^ k) :
    (Nat.toDigits 16 n).length ≤ k
    ∧ (∀ c ∈ Nat.toDigits 16 n, isLowerHexDigit c = true)
    ∧ base16Value (Nat.toDigits 16 n) = n
    ∧ ((Nat.toDigits 16 n).head? ≠ some '0' ∨ Nat.toDigits 16 n = ['0']) :=
  hexCore_spec (n + 1) n (Nat.lt_succ_self n) k hk hlt

/-- Shape of the output of `to_hex` for every integral type that is not a narrow character
type and has at least one byte. -/
theorem to_hex_arith_spec (T : IntegralType) (i : Int) (hk : T.kind ≠ .character)
    (hs : 0 < T.sizeof) :
    (to_hex T i false).length = 2 * T.sizeof
    ∧ (∀ c ∈ (to_hex T i false).data, isLowerHexDigit c = true)
    ∧ (∃ (k : Nat) (digits : List Char),
        (to_hex T i false).data = List.replicate k '0' ++ digits
        ∧ base16Value digits = T.toUnsigned i
        ∧ (digits.head? ≠ some '0' ∨ digits = ['0']))
    ∧ ((base16Value (to_hex T i false).data : Nat) : Int) = i % (2 : Int) ^ T.bits := by
  obtain ⟨hlen, hall, hval, hhead⟩ :=
    toDigits_hex_spec (T.toUnsigned i) (T.sizeof * 2) (by omega) (toUnsigned_lt T i)
  have hdata := to_hex_arith T i hk
  refine ⟨?_, ?_, ?_, ?_⟩
  · rw [String.length, hdata, List.length_append, List.length_replicate]
    omega
  · intro c hc
    rw [hdata] at hc
    rcases List.mem_append.mp hc with hc | hc
    · rw [List.eq_of_mem_replicate hc]; decide
    · exact hall c hc
  · exact ⟨_, _, hdata, hval, hhead⟩
  · rw [hdata, base16Value_zeros, hval, toUnsigned_cast]

/-- The value range of a type of kind `integer`, spelled out. -/
theorem holds_integer (T : IntegralType) (i : Int) (hk : T.kind = .integer) (hi : T.holds i) :
    (T.isSigned = true → -((2 : Int) ^ (T.bits - 1)) ≤ i ∧ i ≤ (2 : Int) ^ (T.bits - 1) - 1)
    ∧ (T.isSigned = false → 0 ≤ i ∧ i ≤ (2 : Int) ^ T.bits - 1) := by
  unfold IntegralType.holds IntegralType.minValue IntegralType.maxValue at hi
  rw [hk] at hi
  constructor
  · intro hs
    simpa [hs] using hi
  · intro hs
    simpa [hs] using hi

/-- The bit pattern of a value of a type of kind `integer`: the value itself when it is not
negative, the value plus `2 ^ bits` when it is. -/
theorem emod_of_holds (T : IntegralType) (i : Int) (hk : T.kind = .integer) (hb : 0 < T.bits)
    (hi : T.holds i) :
    (0 ≤ i → i % (2 : Int) ^ T.bits = i) ∧ (i < 0 → i % (2 : Int) ^ T.bits = i + (2 : Int) ^ T.bits)
    ∧ (T.isSigned = false → 0 ≤ i) := by
  obtain ⟨hsigned, hunsigned⟩ := holds_integer T i hk hi
  have hhalf : (2 : Int) ^ T.bits = 2 * (2 : Int) ^ (T.bits - 1) := by
    rw [← pow_succ']; congr 1; omega
  have hpos : (0 : Int) < (2 : Int) ^ (T.bits - 1) := by positivity
  have hrange : -((2 : Int) ^ (T.bits - 1)) ≤ i ∧ i < (2 : Int) ^ T.bits := by
    cases hs : T.isSigned with
    | true => have := hsigned hs; omega
    | false => have := hunsigned hs; omega
  refine ⟨?_, ?_, ?_⟩
  · intro h0
    exact Int.emod_eq_of_lt h0 hrange.2
  · intro hneg
    have hshift : (i + (2 : Int) ^ T.bits) % (2 : Int) ^ T.bits = i % (2 : Int) ^ T.bits := by
      simp
    rw [← hshift]
    exact Int.emod_eq_of_lt (by omega) (by omega)
  · intro hs
    exact (hunsigned hs).1

/-! ## `QString::fromStdString` on 7-bit text -/

theorem decodeLoop_nil (fuel : Nat) : decodeLoop fuel [] = [] := by
  cases fuel <;> rfl

/-- The decoding loop does not depend on the fuel once there is one unit per byte. -/
theorem decodeLoop_fuel : ∀ (fuel other : Nat) (bytes : List Nat),
    bytes.length ≤ fuel → bytes.length ≤ other → decodeLoop fuel bytes = decodeLoop other bytes := by
  intro fuel
  induction fuel with
  | zero =>
    intro other bytes h _
    have hnil : bytes = [] := List.length_eq_zero.mp (by omega)
    subst hnil
    rw [decodeLoop_nil, decodeLoop_nil]
  | succ fuel ih =>
    intro other bytes h h2
    cases bytes with
    | nil => rw [decodeLoop_nil, decodeLoop_nil]
    | cons b rest =>
      cases other with
      | zero => simp at h2
      | succ other =>
        simp only [decodeLoop]
        simp only [List.length_cons] at h h2
        have hdrop : (rest.drop (decodeStep b rest).2).length ≤ rest.length := by
          rw [List.length_drop]; omega
        rw [ih other _ (by omega) (by omega)]

/-- Bytes below `0x80` decode to themselves. -/
theorem decodeLoop_ascii : ∀ (fuel : Nat) (bytes : List Nat),
    bytes.length ≤ fuel → (∀ b ∈ bytes, b < 128) → decodeLoop fuel bytes = bytes := by
  intro fuel
  induction fuel with
  | zero =>
    intro bytes h _
    have hnil : bytes = [] := List.length_eq_zero.mp (by omega)
    subst hnil
    rfl
  | succ fuel ih =>
    intro bytes h hall
    cases bytes with
    | nil => rfl
    | cons b rest =>
      have hb : b < 128 := hall b (List.mem_cons_self _ _)
      simp only [List.length_cons] at h
      simp only [decodeLoop, decodeStep, hb, if_true, List.drop_zero]
      rw [ih rest (by omega) (fun x hx => hall x (List.mem_cons_of_mem _ hx))]

theorem flatMap_encodeUtf16_ascii : ∀ (cps : List Nat), (∀ b ∈ cps, b < 128) →
    cps.flatMap encodeUtf16 = cps := by
  intro cps
  induction cps with
  | nil => intro _; rfl
  | cons b rest ih =>
    intro hall
    have hb : b < 128 := hall b (List.mem_cons_self _ _)
    have hlt : b < 0x10000 := by omega
    rw [List.flatMap_cons, ih (fun x hx => hall x (List.mem_cons_of_mem _ hx))]
    simp [encodeUtf16, hlt]

/-- On a `std::string` of 7-bit characters `QString::fromStdString` keeps every code unit. -/
theorem fromStdString_ascii (s : String) (h : ∀ c ∈ s.data, c.toNat < 128) :
    (QString.fromStdString s).units = stdStringUnits s := by
  have hall : ∀ b ∈ s.data.map Char.toNat, b < 128 := by
    intro b hb
    obtain ⟨c, hc, rfl⟩ := List.mem_map.mp hb
    exact h c hc
  unfold QString.fromStdString stdStringUnits decodeUtf8
  simp only
  rw [decodeLoop_ascii _ _ (le_refl _) hall, flatMap_encodeUtf16_ascii _ hall]

theorem lowerHexDigit_ascii (c : Char) (h : isLowerHexDigit c = true) : c.toNat < 128 := by
  have h9 : ('9' : Char).toNat = 57 := by decide
  have hf : ('f' : Char).toNat = 102 := by decide
  simp only [isLowerHexDigit, Bool.or_eq_true, Bool.and_eq_true, decide_eq_true_eq] at h
  rcases h with ⟨_, h⟩ | ⟨_, h⟩
  · have : c.toNat ≤ ('9' : Char).toNat := h
    omega
  · have : c.toNat ≤ ('f' : Char).toNat := h
    omega

/-- For every integral type that is not a narrow character type, `toHex` holds the code units
of `to_hex`. -/
theorem toHex_arith (T : IntegralType) (i : Int) (pfx : Bool) (hk : T.kind ≠ .character)
    (hs : 0 < T.sizeof) :
    (toHex T i pfx).units = stdStringUnits (to_hex T i pfx) := by
  have hdigits : ∀ c ∈ (to_hex T i false).data, c.toNat < 128 := fun c hc =>
    lowerHexDigit_ascii c ((to_hex_arith_spec T i hk hs).2.1 c hc)
  unfold toHex
  apply fromStdString_ascii
  cases pfx with
  | false => exact hdigits
  | true =>
    rw [to_hex_prefixed]
    intro c hc
    have hc2 : c ∈ ("0x" : String).data ++ (to_hex T i false).data := by
      simpa using hc
    rcases List.mem_append.mp hc2 with h0 | h1
    · have h0x : ∀ d ∈ ("0x" : String).data, d.toNat < 128 := by decide
      exact h0x c h0
    · exact hdigits c h1

/-! ## Claims about `to_hex` and `toHex` -/

/-- C1: for every integer type `T` of width 16, 32 or 64 bits, signed or unsigned, and every
value `i` of `T`, `to_hex(i, false)` is exactly `2 * sizeof(T)` characters long, consists only
of lowercase hexadecimal digits, is the shortest numeral of the value behind a run of `'0'`
(left padding), and its base-16 value is `i mod 2^w`: `i` itself for an unsigned type (and for
every non-negative `i`), `i + 2^w`, the two's-complement pattern, for a negative `i`. -/
theorem to_hex_fixed_width (T : IntegralType) (i : Int) (hk : T.kind = .integer)
    (hw : T.bits = 16 ∨ T.bits = 32 ∨ T.bits = 64) (hi : T.holds i) :
    (to_hex T i false).length = 2 * T.sizeof
    ∧ (∀ c ∈ (to_hex T i false).data, isLowerHexDigit c = true)
    ∧ (∃ (k : Nat) (digits : List Char),
        (to_hex T i false).data = List.replicate k '0' ++ digits
        ∧ base16Value digits = base16Value (to_hex T i false).data
        ∧ (digits.head? ≠ some '0' ∨ digits = ['0']))
    ∧ ((base16Value (to_hex T i false).data : Nat) : Int) = i % (2 : Int) ^ T.bits
    ∧ (T.isSigned = false → ((base16Value (to_hex T i false).data : Nat) : Int) = i)
    ∧ (0 ≤ i → ((base16Value (to_hex T i false).data : Nat) : Int) = i)
    ∧ (i < 0 → ((base16Value (to_hex T i false).data : Nat) : Int) = i + (2 : Int) ^ T.bits) := by
  have hne : T.kind ≠ .character := by rw [hk]; decide
  have hb : 0 < T.bits := by omega
  have hs : 0 < T.sizeof := by unfold IntegralType.bits at hb; omega
  obtain ⟨hlen, hall, ⟨k, digits, hdata, hdigits, hhead⟩, hval⟩ := to_hex_arith_spec T i hne hs
  obtain ⟨hnonneg, hneg, hunsigned⟩ := emod_of_holds T i hk hb hi
  refine ⟨hlen, hall, ⟨k, digits, hdata, ?_, hhead⟩, hval, ?_, ?_, ?_⟩
  · rw [hdata, base16Value_zeros]
  · intro hu
    rw [hval, hnonneg (hunsigned hu)]
  · intro h0
    rw [hval, hnonneg h0]
  · intro hlt
    rw [hval, hneg hlt]

/-- Witness of C1 at `T = int16_t`, `i = -1`: four characters whose value is `-1 + 2^16`. -/
theorem to_hex_fixed_width_witness :
    int16_t.kind = .integer ∧ int16_t.bits = 16 ∧ int16_t.holds (-1)
    ∧ (to_hex int16_t (-1) false).length = 2 * int16_t.sizeof
    ∧ ((base16Value (to_hex int16_t (-1) false).data : Nat) : Int)
        = -1 + (2 : Int) ^ int16_t.bits :=
  ⟨by decide, by decide, by decide,
    (to_hex_fixed_width int16_t (-1) (by decide) (Or.inl (by decide)) (by decide)).1,
    (to_hex_fixed_width int16_t (-1) (by decide) (Or.inl (by decide)) (by decide)).2.2.2.2.2.2
      (by decide)⟩

/-- C2: at `T = uint8_t`, `i = 65` the code writes the character with code 65 behind one fill
character, `"0A"`, and not the hexadecimal form `"41"` of the integer; the base-16 value of
what it writes is 10, not 65. -/
theorem to_hex_uint8_writes_character :
    uint8_t.holds 65
    ∧ to_hex uint8_t 65 false = "0A"
    ∧ to_hex uint8_t 65 false ≠ "41"
    ∧ base16Value (to_hex uint8_t 65 false).data = 10 := by
  refine ⟨by decide, by decide, by decide, by decide⟩

/-- C6: for every integer type of width 16, 32 or 64 bits and every `i`, hence every value of
the type, `to_hex(i, true)` is `"0x"` followed by `to_hex(i, false)`; its length is
`2 + 2 * sizeof(T)` and the characters after the prefix are those of `to_hex(i, false)`. -/
theorem to_hex_prefix_outside_width (T : IntegralType) (i : Int) (hk : T.kind = .integer)
    (hw : T.bits = 16 ∨ T.bits = 32 ∨ T.bits = 64) :
    to_hex T i true = "0x" ++ to_hex T i false
    ∧ (to_hex T i true).length = 2 + 2 * T.sizeof
    ∧ (to_hex T i true).data.take 2 = ['0', 'x']
    ∧ (to_hex T i true).data.drop 2 = (to_hex T i false).data := by
  have hne : T.kind ≠ .character := by rw [hk]; decide
  have hs : 0 < T.sizeof := by unfold IntegralType.bits at hw; omega
  have hlen := (to_hex_arith_spec T i hne hs).1
  have hdata : (to_hex T i true).data = ['0', 'x'] ++ (to_hex T i false).data := by
    rw [to_hex_prefixed]; rfl
  refine ⟨to_hex_prefixed T i, ?_, ?_, ?_⟩
  · rw [String.length] at hlen ⊢
    rw [hdata, List.length_append, hlen]
    rfl
  · rw [hdata]; rfl
  · rw [hdata]; rfl

/-- Witness of C6 at `T = uint32_t`, `i = 255`. -/
theorem to_hex_prefix_outside_width_witness :
    uint32_t.kind = .integer ∧ uint32_t.bits = 32
    ∧ to_hex uint32_t 255 true = "0x" ++ to_hex uint32_t 255 false
    ∧ (to_hex uint32_t 255 true).length = 2 + 2 * uint32_t.sizeof :=
  ⟨by decide, by decide,
    (to_hex_prefix_outside_width uint32_t 255 (by decide) (Or.inr (Or.inl (by decide)))).1,
    (to_hex_prefix_outside_width uint32_t 255 (by decide) (Or.inr (Or.inl (by decide)))).2.1⟩

/-- C7: at `T = uint8_t`, `i = 200` the two helpers do not hold the same sequence: `to_hex`
holds the code units `0x30 0xC8`, and `toHex`, which decodes them as UTF-8, holds
`U+0030 U+FFFD`. -/
theorem toHex_uint8_replacement_character :
    uint8_t.holds 200
    ∧ stdStringUnits (to_hex uint8_t 200 false) = [0x30, 0xC8]
    ∧ (toHex uint8_t 200 false).units = [0x30, 0xFFFD]
    ∧ (toHex uint8_t 200 false).units ≠ stdStringUnits (to_hex uint8_t 200 false) := by
  refine ⟨by decide, by decide, by decide, by decide⟩

/-! ## Claims about colorization, cache keys and the cache facade -/

theorem colorizePixel_alpha (color p : QColor) : (colorizePixel color p).alpha = p.alpha := by
  unfold colorizePixel
  split <;> rfl

theorem colorizeImage_pixel (input : QPixmap) (color : QColor) (x y : Nat) :
    (colorizeImage input color).pixel x y
      = (input.toImage.pixel x y).map (colorizePixel color) := by
  unfold colorizeImage QImage.pixel
  simp only [List.get?_eq_getElem?, List.getElem?_map]
  cases input.toImage.rows[y]? with
  | none => rfl
  | some row =>
    simp only [Option.map_some', Option.some_bind, List.getElem?_map]

/-- C3: for every pixmap and colour, `colorizeImage` and `colorizePixmap` give an image of the
same width and height whose pixels are those of the input, position by position, with the
alpha channel unchanged: a pixel with alpha > 0 gets the red, green and blue of the colour, a
pixel with alpha = 0 is unchanged, and no pixel appears or disappears. -/
theorem colorize_preserves_alpha (input : QPixmap) (color : QColor) :
    (colorizeImage input color).width = input.width
    ∧ (colorizeImage input color).height = input.height
    ∧ (colorizePixmap input color).width = input.width
    ∧ (colorizePixmap input color).height = input.height
    ∧ (colorizePixmap input color).toImage = colorizeImage input color
    ∧ (∀ x y : Nat, input.toImage.pixel x y = none →
        (colorizeImage input color).pixel x y = none)
    ∧ (∀ (x y : Nat) (p : QColor), input.toImage.pixel x y = some p →
        ∃ q : QColor, (colorizeImage input color).pixel x y = some q
          ∧ q.alpha = p.alpha
          ∧ (0 < p.alpha → q.red = color.red ∧ q.green = color.green ∧ q.blue = color.blue)
          ∧ (p.alpha = 0 → q = p)) := by
  have hw : (colorizeImage input color).width = input.width := by
    unfold colorizeImage QImage.width QPixmap.width QImage.width QPixmap.toImage
    cases input.image.rows <;> simp
  have hh : (colorizeImage input color).height = input.height := by
    unfold colorizeImage QImage.height QPixmap.height QImage.height QPixmap.toImage
    simp
  refine ⟨hw, hh, hw, hh, rfl, ?_, ?_⟩
  · intro x y hnone
    rw [colorizeImage_pixel, hnone]; rfl
  · intro x y p hsome
    refine ⟨colorizePixel color p, ?_, colorizePixel_alpha color p, ?_, ?_⟩
    · rw [colorizeImage_pixel, hsome]; rfl
    · intro hpos
      simp [colorizePixel, hpos]
    · intro hzero
      simp [colorizePixel, hzero]

/-- Witness of C3 on the scenario of section 8: the 2×2 opaque-red pixmap colorized in blue
has opaque blue at position (1, 1). -/
theorem colorize_preserves_alpha_witness :
    redSquare.toImage.pixel 1 1 = some opaqueRed
    ∧ (colorizeImage redSquare opaqueBlue).width = 2
    ∧ ∃ q : QColor, (colorizeImage redSquare opaqueBlue).pixel 1 1 = some q
        ∧ q.alpha = opaqueRed.alpha
        ∧ (0 < opaqueRed.alpha →
            q.red = opaqueBlue.red ∧ q.green = opaqueBlue.green ∧ q.blue = opaqueBlue.blue)
        ∧ (opaqueRed.alpha = 0 → q = opaqueRed) :=
  ⟨by decide, (colorize_preserves_alpha redSquare opaqueBlue).1,
    (colorize_preserves_alpha redSquare opaqueBlue).2.2.2.2.2.2 1 1 opaqueRed (by decide)⟩

theorem pixmapKey_head (identity : QPixmap → Int) (mode : ColorizeMode) (pixmap : QPixmap)
    (color : QColor) :
    (pixmapKey identity mode pixmap color).units.head?
      = (QString.fromStdString (modeTag mode)).units.head? := by
  have happ : ∀ a b : QString, (a ++ b).units = a.units ++ b.units := fun _ _ => rfl
  have hc : (QString.fromStdString "colorize").units
      = [99, 111, 108, 111, 114, 105, 122, 101] := by decide
  have ht : (QString.fromStdString "tint").units = [116, 105, 110, 116] := by decide
  cases mode with
  | Colorize => simp only [pixmapKey, modeTag, happ, hc]; rfl
  | Tint => simp only [pixmapKey, modeTag, happ, ht]; rfl

theorem pixmapKey_mode_ne (identity : QPixmap → Int) (pixmap : QPixmap) (color : QColor) :
    pixmapKey identity .Colorize pixmap color ≠ pixmapKey identity .Tint pixmap color := by
  intro heq
  have hhead := congrArg (fun k : QString => k.units.head?) heq
  simp only [pixmapKey_head] at hhead
  revert hhead
  decide

theorem find_insert_of_ne (cache : PixmapCache) (k1 k2 : QString) (pixmap : QPixmap)
    (hne : k1 ≠ k2) : (cache.insert k1 pixmap).find k2 = cache.find k2 := by
  unfold PixmapCache.insert PixmapCache.find
  simp [List.find?_cons, hne]

/-- C4: for every pixmap and colour (and every source identity), the key of the mode
`Colorize` differs from the key of the mode `Tint`, for the two key functions and for the
keys the facade computes; hence an entry inserted under one mode is never found under the
other. -/
theorem colorize_tint_keys_differ (identity : QPixmap → Int) (pixmap : QPixmap)
    (color : QColor) :
    getColorizedPixmapKey identity pixmap color ≠ getTintedPixmapKey identity pixmap color
    ∧ cacheKeyFor identity .Colorize pixmap color ≠ cacheKeyFor identity .Tint pixmap color
    ∧ (∀ (cache : PixmapCache) (stored : QPixmap),
        (cache.insert (cacheKeyFor identity .Colorize pixmap color) stored).find
            (cacheKeyFor identity .Tint pixmap color)
          = cache.find (cacheKeyFor identity .Tint pixmap color))
    ∧ (∀ (cache : PixmapCache) (stored : QPixmap),
        (cache.insert (cacheKeyFor identity .Tint pixmap color) stored).find
            (cacheKeyFor identity .Colorize pixmap color)
          = cache.find (cacheKeyFor identity .Colorize pixmap color)) := by
  have hne := pixmapKey_mode_ne identity pixmap color
  refine ⟨hne, hne, ?_, ?_⟩
  · intro cache stored
    exact find_insert_of_ne cache _ _ stored hne
  · intro cache stored
    exact find_insert_of_ne cache _ _ stored (Ne.symm hne)

/-- C5: `getCachedPixmap` and its wrappers are total and fall back to the input: for a null
input the result is the input and the cache is untouched; for a valid input whose key is not
cached and whose transform fails the result is the input and the cache is untouched; in every
case the pixmap returned is the input, the cached entry of the key, or the result of the
transform.  The wrappers are `getCachedPixmap` at their mode. -/
theorem getCachedPixmap_falls_back (identity : QPixmap → Int) (layer : TransformLayer)
    (cache : PixmapCache) (input : QPixmap) (color : QColor) (mode : ColorizeMode) :
    (input.isNull = true →
      getCachedPixmap identity layer cache input color mode = (input, cache))
    ∧ (∀ e : ErrorKind, cache.find (cacheKeyFor identity mode input color) = none →
        layer.run mode input color = .error e →
        getCachedPixmap identity layer cache input color mode = (input, cache))
    ∧ ((getCachedPixmap identity layer cache input color mode).1 = input
        ∨ cache.find (cacheKeyFor identity mode input color)
            = some (getCachedPixmap identity layer cache input color mode).1
        ∨ layer.run mode input color
            = .ok (getCachedPixmap identity layer cache input color mode).1)
    ∧ getColorizedPixmap identity layer cache input color
        = getCachedPixmap identity layer cache input color .Colorize
    ∧ getTintedPixmap identity layer cache input color
        = getCachedPixmap identity layer cache input color .Tint := by
  refine ⟨?_, ?_, ?_, rfl, rfl⟩
  · intro hnull
    simp [getCachedPixmap, hnull]
  · intro e hmiss hfail
    unfold getCachedPixmap
    by_cases hnull : input.isNull = true
    · simp [hnull]
    · simp [hnull, hmiss, hfail]
  · unfold getCachedPixmap
    by_cases hnull : input.isNull = true
    · simp [hnull]
    · cases hfind : cache.find (cacheKeyFor identity mode input color) with
      | some hit => simp [hnull, hfind]
      | none =>
        cases hrun : layer.run mode input color with
        | ok result => simp [hnull, hfind, hrun]
        | error e => simp [hnull, hfind, hrun]

/-- Witness of C5: the null pixmap comes back unchanged, and tinting the red square through a
layer whose `tint` fails gives back the red square. -/
theorem getCachedPixmap_falls_back_witness :
    nullPixmap.isNull = true
    ∧ getCachedPixmap (fun _ => 7) sampleLayer emptyCache nullPixmap opaqueBlue .Colorize
        = (nullPixmap, emptyCache)
    ∧ emptyCache.find (cacheKeyFor (fun _ => 7) .Tint redSquare opaqueBlue) = none
    ∧ sampleLayer.run .Tint redSquare opaqueBlue = .error .transformFailed
    ∧ getCachedPixmap (fun _ => 7) sampleLayer emptyCache redSquare opaqueBlue .Tint
        = (redSquare, emptyCache) :=
  ⟨by decide,
    (getCachedPixmap_falls_back (fun _ => 7) sampleLayer emptyCache nullPixmap opaqueBlue
      .Colorize).1 (by decide),
    rfl, rfl,
    (getCachedPixmap_falls_back (fun _ => 7) sampleLayer emptyCache redSquare opaqueBlue
      .Tint).2.1 .transformFailed rfl rfl⟩

/-! ## Claims about the colours of `SegmentedControl` -/

/-- C8: `getItemFgColor` is defined for every mouse state, selection flag and theme.  For a
selected item it is `primaryColorForegroundHovered` when `Hovered`,
`primaryColorForegroundPressed` when `Pressed`, `primaryColorForegroundDisabled` when
`Disabled` and `primaryColorForeground` for every other state; for an unselected item it is
`secondaryColorDisabled` when `Disabled` and `secondaryColor` for every other state, so that,
in a theme where these two colours differ, it is `secondaryColorDisabled` exactly when the
state is `Disabled`. -/
theorem getItemFgColor_table (mouse : MouseState) (theme : Theme) :
    (mouse = .Hovered →
      SegmentedControl.getItemFgColor mouse true theme = theme.primaryColorForegroundHovered)
    ∧ (mouse = .Pressed →
      SegmentedControl.getItemFgColor mouse true theme = theme.primaryColorForegroundPressed)
    ∧ (mouse = .Disabled →
      SegmentedControl.getItemFgColor mouse true theme = theme.primaryColorForegroundDisabled)
    ∧ (mouse ≠ .Hovered → mouse ≠ .Pressed → mouse ≠ .Disabled →
      SegmentedControl.getItemFgColor mouse true theme = theme.primaryColorForeground)
    ∧ (mouse = .Disabled →
      SegmentedControl.getItemFgColor mouse false theme = theme.secondaryColorDisabled)
    ∧ (mouse ≠ .Disabled →
      SegmentedControl.getItemFgColor mouse false theme = theme.secondaryColor)
    ∧ (theme.secondaryColor ≠ theme.secondaryColorDisabled →
      (SegmentedControl.getItemFgColor mouse false theme = theme.secondaryColorDisabled
        ↔ mouse = .Disabled)) := by
  cases mouse <;> simp [SegmentedControl.getItemFgColor]

/-- Witness of C8 in the sample theme: a hovered unselected item has the colour
`secondaryColor`, which is not `secondaryColorDisabled`. -/
theorem getItemFgColor_table_witness :
    MouseState.Hovered ≠ MouseState.Disabled
    ∧ sampleTheme.secondaryColor ≠ sampleTheme.secondaryColorDisabled
    ∧ SegmentedControl.getItemFgColor .Hovered false sampleTheme = sampleTheme.secondaryColor
    ∧ (SegmentedControl.getItemFgColor .Hovered false sampleTheme
          = sampleTheme.secondaryColorDisabled ↔ MouseState.Hovered = MouseState.Disabled) :=
  ⟨by decide, by decide,
    (getItemFgColor_table .Hovered sampleTheme).2.2.2.2.2.1 (by decide),
    (getItemFgColor_table .Hovered sampleTheme).2.2.2.2.2.2 (by decide)⟩

/-- C9: `getItemBadgeBgColor` and `getItemBadgeFgColor` see the mouse state only through the
test against `Disabled`: for every theme and selection flag, two states that both differ from
`Disabled` give the same colours, and `Disabled` gives `primaryAlternativeColorDisabled` /
`secondaryAlternativeColorDisabled` for the background and `primaryColorForegroundDisabled` /
`secondaryColorForegroundDisabled` for the foreground. -/
theorem badge_colors_depend_on_disabled_only (theme : Theme) (selected : Bool)
    (m1 m2 : MouseState) (h1 : m1 ≠ .Disabled) (h2 : m2 ≠ .Disabled) :
    SegmentedControl.getItemBadgeBgColor m1 selected theme
        = SegmentedControl.getItemBadgeBgColor m2 selected theme
    ∧ SegmentedControl.getItemBadgeFgColor m1 selected theme
        = SegmentedControl.getItemBadgeFgColor m2 selected theme
    ∧ SegmentedControl.getItemBadgeBgColor m1 selected theme
        = (if selected then theme.primaryAlternativeColor else theme.secondaryAlternativeColor)
    ∧ SegmentedControl.getItemBadgeFgColor m1 selected theme
        = (if selected then theme.primaryColorForeground else theme.secondaryColorForeground)
    ∧ SegmentedControl.getItemBadgeBgColor .Disabled true theme
        = theme.primaryAlternativeColorDisabled
    ∧ SegmentedControl.getItemBadgeBgColor .Disabled false theme
        = theme.secondaryAlternativeColorDisabled
    ∧ SegmentedControl.getItemBadgeFgColor .Disabled true theme
        = theme.primaryColorForegroundDisabled
    ∧ SegmentedControl.getItemBadgeFgColor .Disabled false theme
        = theme.secondaryColorForegroundDisabled := by
  simp [SegmentedControl.getItemBadgeBgColor, SegmentedControl.getItemBadgeFgColor, h1, h2]

/-- Witness of C9 in the sample theme, for the states `Hovered` and `Pressed`. -/
theorem badge_colors_depend_on_disabled_only_witness :
    MouseState.Hovered ≠ MouseState.Disabled ∧ MouseState.Pressed ≠ MouseState.Disabled
    ∧ SegmentedControl.getItemBadgeBgColor .Hovered true sampleTheme
        = SegmentedControl.getItemBadgeBgColor .Pressed true sampleTheme :=
  ⟨by decide, by decide,
    (badge_colors_depend_on_disabled_only sampleTheme true .Hovered .Pressed (by decide)
      (by decide)).1⟩

end oclero.qlementine
